import Mathlib

/-!
Verification development for the branch-reaper repository.

The definitions below are a shallow embedding of the Python sources:

* `src/branch_reaper/experiment/main-tui.py` — the TUI front end, containing
  `UnifiedBranch` (data model, status classifier, deletion-policy predicates),
  `BranchManager.load_branches` (parse + reconcile), the two deletion
  functions, and the application-level state machine
  (`action_toggle_mark`, `handle_delete_confirm`).
* `src/branch_reaper/main.py` — the menu front end; only its startup control
  flow (`main`) is modelled here.

External effects (invocations of the `git` binary) are modelled as explicit
parameters: each call site receives the `(success, output)` pair that
`run_git` would have produced, so the embedded functions are pure.
Python strings are modelled as `String` / `List Char`, Python's insertion
ordered `dict[str, UnifiedBranch]` as a `List UnifiedBranch` keyed by `name`.
-/

/-! ## Python-string helpers -/

/-- Whitespace class used by Python's `str.strip` / `str.split()` (ASCII part). -/
def pyWs (c : Char) : Bool :=
  c = ' ' || c = '\t' || c = '\n' || c = '\r' || c = '\x0b' || c = '\x0c'

/-- Python `str.strip()`: remove leading and trailing whitespace. -/
def pyStrip (l : List Char) : List Char :=
  ((l.dropWhile pyWs).reverse.dropWhile pyWs).reverse

/-- Boolean prefix test on character lists (Python `str.startswith`). -/
def listPre : List Char → List Char → Bool
  | [], _ => true
  | _ :: _, [] => false
  | a :: as, b :: bs => a == b && listPre as bs

/-- Boolean substring test on character lists (Python `in` on strings). -/
def subStr (pat : List Char) : List Char → Bool
  | [] => pat.isEmpty
  | c :: rest => listPre pat (c :: rest) || subStr pat rest

/-- Python `str.split()` with no separator: split on whitespace runs,
dropping empty chunks.  `acc` accumulates the current chunk reversed. -/
def splitWsAux : List Char → List Char → List (List Char)
  | [], acc => if acc.isEmpty then [] else [acc.reverse]
  | c :: rest, acc =>
    if pyWs c then
      if acc.isEmpty then splitWsAux rest [] else acc.reverse :: splitWsAux rest []
    else splitWsAux rest (c :: acc)

/-- Python `str.split()` with no separator. -/
def splitWs (l : List Char) : List (List Char) := splitWsAux l []

/-- Python `str.split("\n")`: split on every newline character, keeping
empty chunks. -/
def splitNl : List Char → List (List Char)
  | [] => [[]]
  | c :: rest =>
    if c = '\n' then [] :: splitNl rest
    else
      match splitNl rest with
      | [] => [[c]]
      | g :: gs => (c :: g) :: gs

/-! ## Data model (`main-tui.py`, `BranchStatus` and `UnifiedBranch`) -/

/-- `BranchStatus` enum from `main-tui.py` lines 26-30. -/
inductive BranchStatus where
  | SYNCED
  | ORPHAN
  | LOCAL
  | REMOTE
deriving Repr, DecidableEq

/-- `UnifiedBranch` dataclass from `main-tui.py` lines 33-44. -/
structure UnifiedBranch where
  name : String
  has_local : Bool := false
  has_remote : Bool := false
  is_gone : Bool := false
  is_current : Bool := false
  is_protected : Bool := false
  remote_name : Option String := none
  local_marked : Bool := false
  remote_marked : Bool := false
deriving Repr, DecidableEq

/-- `UnifiedBranch.status` property, `main-tui.py` lines 46-55. -/
def UnifiedBranch.status (b : UnifiedBranch) : BranchStatus :=
  if b.has_local && b.has_remote then .SYNCED
  else if b.has_local && b.is_gone then .ORPHAN
  else if b.has_local then .LOCAL
  else .REMOTE

/-- `UnifiedBranch.can_delete_local` property, `main-tui.py` lines 79-81. -/
def UnifiedBranch.can_delete_local (b : UnifiedBranch) : Bool :=
  b.has_local && !b.is_current && !b.is_protected

/-- `UnifiedBranch.can_delete_remote` property, `main-tui.py` lines 83-85. -/
def UnifiedBranch.can_delete_remote (b : UnifiedBranch) : Bool :=
  b.has_remote && !b.is_protected

/-- `BranchManager.is_protected`: membership in `PROTECTED_BRANCHES`
(`main-tui.py` lines 91 and 130-132). -/
def isProtected (n : String) : Bool :=
  n == "main" || n == "master" || n == "develop" || n == "development"

/-! ## Parsing (`BranchManager.load_branches`, `main-tui.py` lines 134-219)

The body of the `git branch -vv` loop is factored out as `parseLocalLine`
(one line to an optional per-branch fact) and the body of the
`git branch -r` loop as `parseRemoteLine`; `load_branches` then folds the
facts into the insertion-ordered map exactly as the Python loops do. -/

/-- Facts extracted from one line of `git branch -vv` output
(`main-tui.py` lines 145-178). -/
structure LocalFact where
  name : String
  is_current : Bool
  tracking : Option String
  is_gone : Bool
  remote_name : Option String
deriving Repr, DecidableEq

/-- Parse one line of the local-branch block (`main-tui.py` lines 145-178).
Returns `none` for the lines the Python loop `continue`s over. -/
def parseLocalLine (l : List Char) : Option LocalFact :=
  if (pyStrip l).isEmpty then none
  else
    let stripped := l.dropWhile pyWs
    let is_current := listPre ['*'] stripped
    let clean := if listPre ['*', ' '] stripped then stripped.drop 2 else stripped
    match splitWs clean with
    | [] => none
    | nm :: _ =>
      let tg : Option (List Char) × Bool :=
        if clean.contains '[' && clean.contains ']' then
          let si := clean.findIdx (· == '[')
          let ei := clean.findIdx (· == ']')
          let ti := (clean.drop (si + 1)).take (ei - (si + 1))
          if subStr ": gone".data ti then (some (pyStrip (ti.takeWhile (· != ':'))), true)
          else if ti.contains ':' then (some (pyStrip (ti.takeWhile (· != ':'))), false)
          else (some (pyStrip ti), false)
        else (none, false)
      let remote_name : Option String :=
        match tg.1 with
        | some t => if !t.isEmpty && t.contains '/' then some ⟨t.takeWhile (· != '/')⟩ else none
        | none => none
      some { name := ⟨nm⟩, is_current := is_current, tracking := tg.1.map (⟨·⟩),
             is_gone := tg.2, remote_name := remote_name }

/-- The `UnifiedBranch` the local loop stores for a parsed line
(`main-tui.py` lines 180-189). -/
def branchOfLocalFact (f : LocalFact) : UnifiedBranch :=
  { name := f.name, has_local := true,
    has_remote := f.tracking.isSome && !f.is_gone,
    is_gone := f.is_gone, is_current := f.is_current,
    remote_name := f.remote_name, is_protected := isProtected f.name }

/-- Parse one line of the remote-branch block into `(remote alias, branch name)`
(`main-tui.py` lines 194-203).  Returns `none` for skipped lines. -/
def parseRemoteLine (l : List Char) : Option (String × String) :=
  let s := pyStrip l
  if s.isEmpty || subStr "->".data s then none
  else if s.contains '/' then
    some (⟨s.takeWhile (· != '/')⟩, ⟨(s.dropWhile (· != '/')).drop 1⟩)
  else none

/-- Remote-only entity created when a remote line's name is not yet in the map
(`main-tui.py` lines 210-217). -/
def remoteOnlyBranch (rAlias nm : String) : UnifiedBranch :=
  { name := nm, has_local := false, has_remote := true,
    remote_name := some rAlias, is_protected := isProtected nm }

/-- Python `dict` write, on the insertion-ordered association list: if an entry
with key `nm` exists, every such entry is rewritten through `f` in place
(there is at most one); otherwise `nb` is appended. -/
def upsertBy (m : List UnifiedBranch) (nm : String)
    (f : UnifiedBranch → UnifiedBranch) (nb : UnifiedBranch) : List UnifiedBranch :=
  if m.any (fun x => x.name == nm) then
    m.map (fun x => if x.name == nm then f x else x)
  else m ++ [nb]

/-- `branch_map[name] = branch` in the local loop (`main-tui.py` line 189). -/
def applyLocalFact (m : List UnifiedBranch) (f : LocalFact) : List UnifiedBranch :=
  upsertBy m f.name (fun _ => branchOfLocalFact f) (branchOfLocalFact f)

/-- The remote-loop map update (`main-tui.py` lines 205-217): mark the existing
entry as having a remote and overwrite its alias, or create a remote-only one. -/
def applyRemoteFact (m : List UnifiedBranch) (p : String × String) : List UnifiedBranch :=
  upsertBy m p.2 (fun x => { x with has_remote := true, remote_name := some p.1 })
    (remoteOnlyBranch p.1 p.2)

/-- The local facts `load_branches` observes: guarded by Python's
`if success and output:` truthiness test on the `git branch -vv` call. -/
def localFactsEff (lo : Bool) (lt : String) : List LocalFact :=
  if lo && !lt.data.isEmpty then (splitNl lt.data).filterMap parseLocalLine else []

/-- The remote facts `load_branches` observes: guarded by Python's
`if success and output:` truthiness test on the `git branch -r` call. -/
def remoteFactsEff (ro : Bool) (rt : String) : List (String × String) :=
  if ro && !rt.data.isEmpty then (splitNl rt.data).filterMap parseRemoteLine else []

/-! ## Sorting key (`main-tui.py` line 219)

`sorted(branch_map.values(), key=lambda b: (not b.is_protected, b.name))`:
tuple comparison is lexicographic, `False < True` on booleans, and string
comparison is lexicographic on characters. -/

/-- Lexicographic `≤` on character lists (Python string comparison). -/
def charsLE : List Char → List Char → Bool
  | [], _ => true
  | _ :: _, [] => false
  | a :: as, b :: bs => if a < b then true else if b < a then false else charsLE as bs

/-- The sort key order of `main-tui.py` line 219:
`(not is_protected, name) ≤ (not is_protected, name)` lexicographically. -/
def keyLE (a b : UnifiedBranch) : Bool :=
  if (!a.is_protected) == (!b.is_protected) then charsLE a.name.data b.name.data
  else !(!a.is_protected) && (!b.is_protected)

/-- `keyLE` as a relation, for use with `List.insertionSort`. -/
def branchLE (a b : UnifiedBranch) : Prop := keyLE a b = true

instance : DecidableRel branchLE :=
  fun a b => inferInstanceAs (Decidable (keyLE a b = true))

/-- `BranchManager.load_branches` (`main-tui.py` lines 134-219) as a pure
function of the raw `git` results: `(lo, lt)` is the `(success, output)` of
`git branch -vv`, `(ro, rt)` that of `git branch -r`.  (Python's `sorted` is a
stable sort; since map keys are unique the result does not depend on which
stable sort is used.) -/
def loadBranches (lo : Bool) (lt : String) (ro : Bool) (rt : String) :
    List UnifiedBranch :=
  let m1 := (localFactsEff lo lt).foldl applyLocalFact []
  let m2 := (remoteFactsEff ro rt).foldl applyRemoteFact m1
  List.insertionSort branchLE m2

/-! ## Deletion (`main-tui.py` lines 221-246 and 588-626)

A `git` invocation is modelled by the `(success, output)` pair the call would
return; the batch loop receives an oracle `g` mapping the side (`true` =
local) and branch name of the issued command to that pair. -/

/-- Outcome of one deletion function: whether the external `git` delete
command was issued at all, the returned `(success, message)` pair, and the
branch entity after the call (the Python functions mutate it in place). -/
structure DeleteOutcome where
  issued : Bool
  ok : Bool
  msg : String
  branch : UnifiedBranch
deriving Repr, DecidableEq

/-- `BranchManager.delete_local_branch` (`main-tui.py` lines 221-233).
`g` is the `(success, output)` of `run_git("branch", "-D", name)`. -/
def delete_local_branch (g : Bool × String) (b : UnifiedBranch) : DeleteOutcome :=
  if b.is_current then ⟨false, false, "Cannot delete current branch", b⟩
  else if !b.has_local then ⟨false, false, "No local branch to delete", b⟩
  else if g.1 then
    ⟨true, true, "Deleted local: " ++ b.name, { b with has_local := false, local_marked := false }⟩
  else ⟨true, false, "Failed: " ++ g.2, b⟩

/-- `branch.remote_name or "origin"` (`main-tui.py` line 240); Python treats
both `None` and the empty string as falsy. -/
def remoteAlias (b : UnifiedBranch) : String :=
  match b.remote_name with
  | none => "origin"
  | some r => if r.isEmpty then "origin" else r

/-- `BranchManager.delete_remote_branch` (`main-tui.py` lines 235-246).
`g` is the `(success, output)` of `run_git("push", remote, "--delete", name)`. -/
def delete_remote_branch (g : Bool × String) (b : UnifiedBranch) : DeleteOutcome :=
  if !b.has_remote then ⟨false, false, "No remote branch to delete", b⟩
  else if g.1 then
    ⟨true, true, "Deleted remote: " ++ remoteAlias b ++ "/" ++ b.name,
      { b with has_remote := false, remote_marked := false }⟩
  else ⟨true, false, "Failed: " ++ g.2, b⟩

/-- One iteration of the `handle_delete_confirm` loop (`main-tui.py` lines
598-611) on a single branch: the local deletion (when `local_marked`) followed
by the remote deletion (when `remote_marked`), accumulating the success count
and error messages.  `g side name` gives the git result for the issued
command (`side = true` for the local delete). -/
def process_marked (g : Bool → String → Bool × String) (b : UnifiedBranch) :
    Nat × List String × UnifiedBranch :=
  let r1 :=
    if b.local_marked then
      let r := delete_local_branch (g true b.name) b
      if r.ok then ((1 : Nat), ([] : List String), r.branch) else (0, [r.msg], r.branch)
    else (0, [], b)
  if r1.2.2.remote_marked then
    let r := delete_remote_branch (g false r1.2.2.name) r1.2.2
    if r.ok then (r1.1 + 1, r1.2.1, r.branch) else (r1.1, r1.2.1 ++ [r.msg], r.branch)
  else r1

/-- The whole `for branch in self.manager.branches[:]` loop of
`handle_delete_confirm` (`main-tui.py` lines 595-611): `deleted` count, the
`errors` list, and the branch entities after the loop. -/
def handle_delete_loop (g : Bool → String → Bool × String)
    (bs : List UnifiedBranch) : Nat × List String × List UnifiedBranch :=
  bs.foldl
    (fun acc b =>
      let r := process_marked g b
      (acc.1 + r.1, acc.2.1 ++ r.2.1, acc.2.2 ++ [r.2.2]))
    (0, [], [])

/-- `handle_delete_confirm`'s state mutation on a confirmed dialog
(`main-tui.py` lines 595-617): run the loop, then drop entities that no
longer exist on either side. -/
def handle_delete_confirm (g : Bool → String → Bool × String)
    (bs : List UnifiedBranch) : Nat × List String × List UnifiedBranch :=
  let r := handle_delete_loop g bs
  (r.1, r.2.1, r.2.2.filter (fun b => b.has_local || b.has_remote))

/-! ## Interactive state machine (`BranchReaperApp`, `main-tui.py`)

The application state observable by the claims: the manager's branch list,
the status-bar message, and the table cursor.  Rendering calls
(`update_row`, `update_status`, `refresh_table`) only redraw widgets from
this state and are omitted. -/

/-- The mutable state of `BranchReaperApp` relevant to the core:
`manager.branches`, `status_message`, and the `DataTable` cell cursor. -/
structure AppState where
  branches : List UnifiedBranch
  status_message : String
  cursor_row : Nat
  cursor_col : Nat
deriving Repr

/-- Status message for a rejected mark on a protected branch
(`main-tui.py` lines 522 and 532). -/
def protectedMsg (n : String) : String :=
  "Cannot delete protected branch: " ++ n

/-- `BranchReaperApp.action_toggle_mark` (`main-tui.py` lines 509-542).
Reads the branch under the cursor and toggles the corresponding mark bit,
or only sets a rejection message. -/
def action_toggle_mark (s : AppState) : AppState :=
  match s.branches[s.cursor_row]? with
  | none => s
  | some b =>
    if s.cursor_col = 1 then
      if b.is_protected then { s with status_message := protectedMsg b.name }
      else if b.can_delete_local then
        { s with
          branches := s.branches.set s.cursor_row { b with local_marked := !b.local_marked },
          status_message :=
            (if !b.local_marked then "Marked" else "Unmarked") ++ " local: " ++ b.name }
      else if b.is_current then { s with status_message := "Cannot delete current branch" }
      else { s with status_message := "No local branch to delete" }
    else if s.cursor_col = 2 then
      if b.is_protected then { s with status_message := protectedMsg b.name }
      else if b.can_delete_remote then
        { s with
          branches := s.branches.set s.cursor_row { b with remote_marked := !b.remote_marked },
          status_message :=
            (if !b.remote_marked then "Marked" else "Unmarked") ++ " remote: " ++ b.name }
      else { s with status_message := "No remote branch to delete" }
    else { s with status_message := "Use ← → to select Local or Remote column" }

/-- The operations that can mutate the application state.  `load` carries the
raw `git` results consumed by `load_branches` (a refresh is a `fetch_prune`
followed by `load`; `fetch_prune` itself only touches the status message).
`deleteConfirm` carries the dialog answer and the git oracle for the batch. -/
inductive Act where
  | load (lo : Bool) (lt : String) (ro : Bool) (rt : String)
  | moveCursor (r c : Nat)
  | toggleMark
  | deleteConfirm (confirmed : Bool) (g : Bool → String → Bool × String)

/-- One transition of the interactive state machine. -/
def step (s : AppState) : Act → AppState
  | .load lo lt ro rt =>
    { s with branches := loadBranches lo lt ro rt,
             status_message := "Loaded " ++ toString (loadBranches lo lt ro rt).length ++ " branches" }
  | .moveCursor r c => { s with cursor_row := r, cursor_col := c }
  | .toggleMark => action_toggle_mark s
  | .deleteConfirm false _ => { s with status_message := "Deletion cancelled" }
  | .deleteConfirm true g =>
    let r := handle_delete_confirm g s.branches
    { s with branches := r.2.2,
             status_message :=
               if r.2.1.isEmpty then
                 "Successfully deleted " ++ toString r.1 ++ " branch(es)"
               else
                 "Deleted " ++ toString r.1 ++ ", Errors: " ++ toString r.2.1.length }

/-- The state the TUI starts in: empty branch list until the first load
(`BranchReaperApp.__init__` and `on_mount`). -/
def initialAppState : AppState := ⟨[], "", 0, 1⟩

/-- Run a sequence of operations from the initial state. -/
def runApp (acts : List Act) : AppState := acts.foldl step initialAppState

/-! ## Manager-level reload (`BranchManager`, claim about idempotence) -/

/-- The mutable fields of `BranchManager` (`main-tui.py` lines 93-95). -/
structure BranchManagerState where
  branches : List UnifiedBranch := []
  current_branch : Option String := none
deriving Repr, DecidableEq

/-- `load_branches` as a state transformer on `BranchManager`: it also stores
the `git branch --show-current` answer (`main-tui.py` lines 138-140), and
rebuilds `self.branches` from scratch. -/
def load_branches_state (s : BranchManagerState) (cOk : Bool) (cOut : String)
    (lo : Bool) (lt : String) (ro : Bool) (rt : String) : BranchManagerState :=
  { s with current_branch := if cOk then some cOut else none,
           branches := loadBranches lo lt ro rt }

/-! ## Startup control flow of the two front ends -/

/-- A branch operation observable at the gateway boundary. -/
inductive BranchOp where
  | fetchPrune
  | loadAll
deriving Repr, DecidableEq

/-- Result of running a front end's startup path: whether the error was
emitted, the process exit status if the startup terminated the process, and
the branch operations performed. -/
structure StartupRun where
  errorEmitted : Bool
  exitCode : Option Nat
  ops : List BranchOp
deriving Repr, DecidableEq

/-- Startup control flow of the menu front end
(`src/branch_reaper/main.py`, `main`, lines 627-643): outside a repository it
prints the error and calls `sys.exit(1)` before any branch operation;
otherwise it fetches and loads before entering the menu loop. -/
def cli_main_startup (isRepo : Bool) : StartupRun :=
  if !isRepo then ⟨true, some 1, []⟩
  else ⟨false, none, [.fetchPrune, .loadAll]⟩

/-- Startup control flow of the TUI front end
(`main-tui.py`, `BranchReaperApp.on_mount` lines 375-393 plus
`initial_load`): outside a repository it sets the error status message and
returns — the application keeps running and no exit is requested; otherwise
`initial_load` fetches and loads. -/
def tui_on_mount (isRepo : Bool) : StartupRun :=
  if !isRepo then ⟨true, none, []⟩
  else ⟨false, none, [.fetchPrune, .loadAll]⟩

/-! ## Concrete inputs used by counterexamples and witnesses -/

/-- Local-branch block where a gone local branch also appears under a second
remote alias in the remote block. -/
def cexGoneLocalText : String := "  foo abc [origin/foo: gone]"

/-- Remote-branch block listing `foo` under the alias `upstream`. -/
def cexGoneRemoteText : String := "upstream/foo"

/-- Local-branch block in which the name `foo` appears on two lines, the
first with a tracked remote and the second without. -/
def cexDupLocalText : String := "foo abc [origin/foo]\nfoo def"

/-- A protected branch that exists locally and is not checked out. -/
def protectedLocalBranch : UnifiedBranch :=
  { name := "main", has_local := true, has_remote := true, is_protected := true }

/-- A synced, unprotected branch used as a witness input. -/
def syncedBranch : UnifiedBranch :=
  { name := "alpha", has_local := true, has_remote := true }

/-- The same flag triple as `syncedBranch` with every other field changed. -/
def syncedBranchAlt : UnifiedBranch :=
  { name := "omega", has_local := true, has_remote := true, is_current := true,
    is_protected := true, remote_name := some "origin", local_marked := true,
    remote_marked := true }

/-- A marked, deletable local-only branch whose deletion will succeed. -/
def witnessBranchA : UnifiedBranch :=
  { name := "wa", has_local := true, local_marked := true }

/-- A marked, deletable local-only branch whose deletion will fail. -/
def witnessBranchB : UnifiedBranch :=
  { name := "wb", has_local := true, local_marked := true }

/-- Git oracle for the two-item batch: deleting `wa` succeeds, `wb` fails. -/
def witnessOracle : Bool → String → Bool × String :=
  fun _ n => if n = "wb" then (false, "boom") else (true, "")

/-- The checked-out branch; local deletion must be skipped for it. -/
def currentLocalBranch : UnifiedBranch :=
  { name := "cur", has_local := true, is_current := true }

/-- Local-branch block with a single synced branch `alpha`. -/
def wAlphaLocalText : String := "alpha abc [origin/alpha]"

/-- The entity `loadBranches` produces from `wAlphaLocalText` alone. -/
def wAlphaBranch : UnifiedBranch :=
  { name := "alpha", has_local := true, has_remote := true, remote_name := some "origin" }

/-! ## Status-case predicates (spec §3 / §4.3 case split) -/

/-- Case `hasLocal ∧ hasRemote` of the §3 invariant. -/
def caseSynced (b : UnifiedBranch) : Bool := b.has_local && b.has_remote

/-- Case `hasLocal ∧ isGone` of the §3 invariant. -/
def caseOrphan (b : UnifiedBranch) : Bool := b.has_local && b.is_gone

/-- Case `hasLocal ∧ ¬hasRemote ∧ ¬isGone` of the §3 invariant. -/
def caseLocalOnly (b : UnifiedBranch) : Bool := b.has_local && !b.has_remote && !b.is_gone

/-- Case `¬hasLocal ∧ hasRemote` of the §3 invariant. -/
def caseRemoteOnly (b : UnifiedBranch) : Bool := !b.has_local && b.has_remote

/-- Number of the four §3 cases that hold for `b`. -/
def caseCount (b : UnifiedBranch) : Nat :=
  (cond (caseSynced b) 1 0) + (cond (caseOrphan b) 1 0) +
  (cond (caseLocalOnly b) 1 0) + (cond (caseRemoteOnly b) 1 0)

/-! ## Fact-level view of a reconciliation pass (for the OR-of-facts claim) -/

/-- The "has a remote" inference a single local line contributes
(`main-tui.py` line 183): tracking present and not gone. -/
def localRemoteOf (f : LocalFact) : Bool := f.tracking.isSome && !f.is_gone

/-- Whether any local fact in the pass mentions branch `n`. -/
def anyLocalFact (fs : List LocalFact) (n : String) : Bool :=
  fs.any (fun f => f.name == n)

/-- The remote-existence inference of the LAST local fact for `n`
(later `branch_map[name] = branch` writes overwrite earlier ones). -/
def lastLocalRemote (fs : List LocalFact) (n : String) : Bool :=
  match (fs.filter (fun f => f.name == n)).getLast? with
  | some f => localRemoteOf f
  | none => false

/-- Whether any remote fact in the pass mentions branch `n`. -/
def anyRemoteFact (ps : List (String × String)) (n : String) : Bool :=
  ps.any (fun p => p.2 == n)

/-- The protection invariant of the interactive session: no protected branch
carries a deletion mark. -/
def ProtectedUnmarked (bs : List UnifiedBranch) : Prop :=
  ∀ b ∈ bs, b.is_protected = true → b.local_marked = false ∧ b.remote_marked = false

/-- A concrete operation sequence used as a witness input. -/
def wActs : List Act := [Act.load true wAlphaLocalText true "", Act.toggleMark]

/-- A concrete application state with the protected branch under the cursor. -/
def wAppState : AppState := ⟨[protectedLocalBranch], "", 0, 1⟩

/-! # Theorems -/

/-! ## Generic helper lemmas -/

/-- Anything in an `upsertBy` result was already in the map, is the image of a
map entry under the update, or is the inserted entity. -/
theorem mem_upsertBy {m : List UnifiedBranch} {nm : String}
    {f : UnifiedBranch → UnifiedBranch} {nb b : UnifiedBranch}
    (hb : b ∈ upsertBy m nm f nb) : b ∈ m ∨ (∃ x ∈ m, b = f x) ∨ b = nb := by
  unfold upsertBy at hb
  split at hb
  · rcases List.mem_map.1 hb with ⟨x, hx, hfx⟩
    by_cases h : (x.name == nm) = true
    · exact Or.inr (Or.inl ⟨x, hx, by simpa [h] using hfx.symm⟩)
    · simp only [h, if_false] at hfx
      exact Or.inl (hfx ▸ hx)
  · rcases List.mem_append.1 hb with h | h
    · exact Or.inl h
    · exact Or.inr (Or.inr (by simpa using h))

/-- Fold preservation of an accumulator invariant. -/
theorem foldl_inv {α β : Type} {g : β → α → β} {p : β → Prop}
    (hstep : ∀ m a, p m → p (g m a)) :
    ∀ (ls : List α) (m : β), p m → p (ls.foldl g m)
  | [], _, hm => hm
  | a :: ls, m, hm => foldl_inv hstep ls (g m a) (hstep m a hm)

/-- Every entry of the reconciliation map exists on at least one side. -/
theorem sides_applyLocalFact {m : List UnifiedBranch} {f : LocalFact}
    (hm : ∀ x ∈ m, (x.has_local || x.has_remote) = true) :
    ∀ b ∈ applyLocalFact m f, (b.has_local || b.has_remote) = true := by
  intro b hb
  rcases mem_upsertBy hb with h | ⟨x, _, rfl⟩ | rfl
  · exact hm b h
  · simp [branchOfLocalFact]
  · simp [branchOfLocalFact]

/-- The remote pass also keeps every entry existing on at least one side. -/
theorem sides_applyRemoteFact {m : List UnifiedBranch} {p : String × String}
    (hm : ∀ x ∈ m, (x.has_local || x.has_remote) = true) :
    ∀ b ∈ applyRemoteFact m p, (b.has_local || b.has_remote) = true := by
  intro b hb
  rcases mem_upsertBy hb with h | ⟨x, _, rfl⟩ | rfl
  · exact hm b h
  · simp
  · simp [remoteOnlyBranch]

/-- Membership in the sorted output is membership in the reconciliation map. -/
theorem mem_loadBranches_iff {lo : Bool} {lt : String} {ro : Bool} {rt : String}
    {b : UnifiedBranch} :
    b ∈ loadBranches lo lt ro rt ↔
      b ∈ (remoteFactsEff ro rt).foldl applyRemoteFact
            ((localFactsEff lo lt).foldl applyLocalFact []) :=
  (List.perm_insertionSort branchLE _).mem_iff

/-! ## C1 — case coverage after reconciliation -/

/-- C1 (amended): after every reconciliation, every branch in the working set
exists on at least one side, hence AT LEAST one of the four §3 flag cases
holds for it; "exactly one" fails (see the counterexample), because the
remote pass can set `hasRemote` on a branch whose `isGone` is already true. -/
theorem load_branches_case_coverage (lo : Bool) (lt : String) (ro : Bool) (rt : String)
    (b : UnifiedBranch) (hb : b ∈ loadBranches lo lt ro rt) :
    (caseSynced b = true ∨ caseOrphan b = true ∨ caseLocalOnly b = true ∨
      caseRemoteOnly b = true) ∧ (b.has_local || b.has_remote) = true := by
  have hmem := mem_loadBranches_iff.1 hb
  have h1 : ∀ x ∈ (localFactsEff lo lt).foldl applyLocalFact ([] : List UnifiedBranch),
      (x.has_local || x.has_remote) = true :=
    foldl_inv (p := fun (m : List UnifiedBranch) => ∀ x ∈ m, (x.has_local || x.has_remote) = true)
      (fun _ _ hm => sides_applyLocalFact hm) _ _ (by simp)
  have h2 : (b.has_local || b.has_remote) = true :=
    foldl_inv (p := fun (m : List UnifiedBranch) => ∀ x ∈ m, (x.has_local || x.has_remote) = true)
      (fun _ _ hm => sides_applyRemoteFact hm) _ _ h1 b hmem
  refine ⟨?_, h2⟩
  unfold caseSynced caseOrphan caseLocalOnly caseRemoteOnly
  cases hl : b.has_local <;> cases hr : b.has_remote <;> cases hg : b.is_gone <;>
    simp_all

/-- C1 witness: a concrete reconciliation containing the branch `alpha`,
which satisfies the case disjunction. -/
theorem load_branches_case_coverage_witness :
    (caseSynced wAlphaBranch = true ∨ caseOrphan wAlphaBranch = true ∨
      caseLocalOnly wAlphaBranch = true ∨ caseRemoteOnly wAlphaBranch = true) ∧
    (wAlphaBranch.has_local || wAlphaBranch.has_remote) = true :=
  load_branches_case_coverage true wAlphaLocalText true "" wAlphaBranch (by decide)

/-- C1 counterexample: with local block `  foo abc [origin/foo: gone]` and
remote block `upstream/foo`, the reconciled branch has `hasLocal`, `hasRemote`
and `isGone` all true, so the SYNCED and ORPHAN cases hold simultaneously and
"exactly one of the four cases" is violated. -/
theorem load_branches_exactly_one_cex :
    (loadBranches true cexGoneLocalText true cexGoneRemoteText).any
      (fun b => caseSynced b && caseOrphan b && b.has_local && b.has_remote && b.is_gone) =
      true := by decide

/-! ## C2 — status classifier -/

/-- C2: `status` always returns one of the four enum values; under the §3
exactly-one-case invariant it agrees with the specified table; and it is a
function of `(hasLocal, hasRemote, isGone)` alone — two branches agreeing on
those three flags get the same status whatever their other fields are. -/
theorem status_classifier (b b' : UnifiedBranch)
    (h : b.has_local = b'.has_local ∧ b.has_remote = b'.has_remote ∧
      b.is_gone = b'.is_gone) :
    (b.status = .SYNCED ∨ b.status = .ORPHAN ∨ b.status = .LOCAL ∨ b.status = .REMOTE) ∧
    (caseCount b = 1 →
      (caseSynced b = true → b.status = .SYNCED) ∧
      (caseOrphan b = true → b.status = .ORPHAN) ∧
      (caseLocalOnly b = true → b.status = .LOCAL) ∧
      (caseRemoteOnly b = true → b.status = .REMOTE)) ∧
    b.status = b'.status := by
  obtain ⟨h1, h2, h3⟩ := h
  unfold UnifiedBranch.status caseCount caseSynced caseOrphan caseLocalOnly caseRemoteOnly
  cases hl : b.has_local <;> cases hr : b.has_remote <;> cases hg : b.is_gone <;>
    simp_all

/-- C2 witness: a synced branch and a branch with the same flag triple but
every other field different classify identically as SYNCED. -/
theorem status_classifier_witness :
    syncedBranch.status = BranchStatus.SYNCED ∧
    syncedBranch.status = syncedBranchAlt.status :=
  ⟨((status_classifier syncedBranch syncedBranchAlt (by decide)).2.1 (by decide)).1
      (by decide),
   (status_classifier syncedBranch syncedBranchAlt (by decide)).2.2⟩

/-! ## C3 — deletion-policy predicates -/

/-- C3: `can_delete_local = hasLocal ∧ ¬isCurrent ∧ ¬isProtected` and
`can_delete_remote = hasRemote ∧ ¬isProtected`; consequently the local
predicate is false on the current branch and both are false on protected
branches, regardless of all other fields. -/
theorem deletion_policy (b : UnifiedBranch) :
    b.can_delete_local = (b.has_local && !b.is_current && !b.is_protected) ∧
    b.can_delete_remote = (b.has_remote && !b.is_protected) ∧
    (b.is_current = true → b.can_delete_local = false) ∧
    (b.is_protected = true →
      b.can_delete_local = false ∧ b.can_delete_remote = false) := by
  refine ⟨rfl, rfl, ?_, ?_⟩ <;>
    · intro h
      simp [UnifiedBranch.can_delete_local, UnifiedBranch.can_delete_remote, h]

/-- C3 witness: on the protected branch `main` both predicates are false. -/
theorem deletion_policy_witness :
    protectedLocalBranch.can_delete_local = false ∧
    protectedLocalBranch.can_delete_remote = false :=
  (deletion_policy protectedLocalBranch).2.2.2 rfl

/-! ## C4 — re-validation before executing a deletion -/

/-- C4 counterexample: `delete_local_branch` issues the external delete
command for a protected branch (`main`, local, not current) even though
`can_delete_local` is false — the `isProtected` part of the policy predicate
is NOT re-validated at execution time. -/
theorem delete_revalidation_cex :
    (delete_local_branch (true, "") protectedLocalBranch).issued = true ∧
    protectedLocalBranch.can_delete_local = false := by decide

/-- C4 (amended): before issuing the external command, the local deletion
re-validates `hasLocal ∧ ¬isCurrent` and the remote deletion re-validates
`hasRemote` against the latest entity; an item failing those re-checked
conditions is skipped with a reported reason and its state is unchanged.
The `isProtected` component of the policy predicates is not re-checked at
execution time (it is enforced at mark time only). -/
theorem delete_revalidation (g : Bool × String) (b : UnifiedBranch) :
    (delete_local_branch g b).issued = (!b.is_current && b.has_local) ∧
    ((delete_local_branch g b).issued = false →
      (delete_local_branch g b).branch = b ∧ (delete_local_branch g b).ok = false) ∧
    (delete_remote_branch g b).issued = b.has_remote ∧
    ((delete_remote_branch g b).issued = false →
      (delete_remote_branch g b).branch = b ∧ (delete_remote_branch g b).ok = false) := by
  obtain ⟨gok, gout⟩ := g
  unfold delete_local_branch delete_remote_branch
  cases hc : b.is_current <;> cases hl : b.has_local <;> cases hr : b.has_remote <;>
    cases hg : gok <;> simp_all

/-- C4 witness: the current branch is skipped with no state change. -/
theorem delete_revalidation_witness :
    (delete_local_branch (true, "") currentLocalBranch).branch = currentLocalBranch ∧
    (delete_local_branch (true, "") currentLocalBranch).ok = false :=
  (delete_revalidation (true, "") currentLocalBranch).2.1 (by decide)

/-! ## C5 — best-effort deletion batch -/

/-- Unfolding of the `handle_delete_confirm` loop with a general accumulator. -/
theorem handle_delete_loop_aux (g : Bool → String → Bool × String)
    (bs : List UnifiedBranch) :
    ∀ acc : Nat × List String × List UnifiedBranch,
      bs.foldl
        (fun acc b =>
          let r := process_marked g b
          (acc.1 + r.1, acc.2.1 ++ r.2.1, acc.2.2 ++ [r.2.2])) acc =
      (acc.1 + (bs.map fun b => (process_marked g b).1).sum,
       acc.2.1 ++ (bs.map fun b => (process_marked g b).2.1).flatten,
       acc.2.2 ++ bs.map fun b => (process_marked g b).2.2) := by
  induction bs with
  | nil => intro acc; simp
  | cons b bs ih =>
    intro acc
    simp [List.foldl_cons, ih, Nat.add_assoc, List.append_assoc]

/-- C5: the deletion batch is best-effort and per-item.  First conjunct: the
loop processes every request whatever the individual outcomes are — the
resulting count, error list and entity list are the per-item results
combined, so an earlier success is never rolled back by a later failure.
Second conjunct: for a two-item batch of marked local branches where the
first git command succeeds and the second fails, the result is 1 success,
1 recorded failure message, the first entity's `hasLocal` and mark cleared,
and the second entity untouched. -/
theorem delete_batch_best_effort
    (g : Bool → String → Bool × String) (b1 b2 : UnifiedBranch) (o1 o2 : String)
    (h1 : b1.local_marked = true) (h2 : b1.remote_marked = false)
    (h3 : b1.is_current = false) (h4 : b1.has_local = true)
    (h5 : b2.local_marked = true) (h6 : b2.remote_marked = false)
    (h7 : b2.is_current = false) (h8 : b2.has_local = true)
    (hg1 : g true b1.name = (true, o1)) (hg2 : g true b2.name = (false, o2)) :
    (∀ (g2 : Bool → String → Bool × String) (bs : List UnifiedBranch),
      handle_delete_loop g2 bs =
        ((bs.map fun b => (process_marked g2 b).1).sum,
         (bs.map fun b => (process_marked g2 b).2.1).flatten,
         bs.map fun b => (process_marked g2 b).2.2)) ∧
    handle_delete_loop g [b1, b2] =
      (1, ["Failed: " ++ o2],
       [{ b1 with has_local := false, local_marked := false }, b2]) := by
  constructor
  · intro g2 bs
    unfold handle_delete_loop
    simpa using handle_delete_loop_aux g2 bs (0, [], [])
  · unfold handle_delete_loop
    simp [process_marked, delete_local_branch, h1, h2, h3, h4, h5, h6, h7, h8,
      hg1, hg2]

/-- C5 witness: the two-item scenario at concrete inputs — deleting `wa`
succeeds and clears its flag and mark, deleting `wb` fails with its message
and `wb` is untouched. -/
theorem delete_batch_best_effort_witness :
    handle_delete_loop witnessOracle [witnessBranchA, witnessBranchB] =
      (1, ["Failed: " ++ "boom"],
       [{ witnessBranchA with has_local := false, local_marked := false },
        witnessBranchB]) :=
  (delete_batch_best_effort witnessOracle witnessBranchA witnessBranchB "" "boom"
    rfl rfl rfl rfl rfl rfl rfl rfl (by decide) (by decide)).2

/-! ## C8 — reconciliation is deterministic and idempotent -/

/-- C8: `load_branches` rebuilds the entity set from scratch as a pure
function of the raw inputs, so running it twice on identical raw input blocks
(same local text, remote text and current-branch answer) yields an identical
manager state, field for field. -/
theorem load_branches_idempotent (s : BranchManagerState) (cOk : Bool) (cOut : String)
    (lo : Bool) (lt : String) (ro : Bool) (rt : String) :
    load_branches_state (load_branches_state s cOk cOut lo lt ro rt) cOk cOut lo lt ro rt =
      load_branches_state s cOk cOut lo lt ro rt ∧
    (load_branches_state s cOk cOut lo lt ro rt).branches = loadBranches lo lt ro rt :=
  ⟨rfl, rfl⟩

/-! ## C9 — behavior outside a repository -/

/-- C9 counterexample: invoked outside a repository, the TUI front end shows
the error but does not terminate the process — no exit status is produced at
all, contradicting "terminates with a non-zero process exit status". -/
theorem non_repo_exit_cex :
    (tui_on_mount false).errorEmitted = true ∧ (tui_on_mount false).exitCode = none := by
  decide

/-- C9 (amended): outside a repository, both front ends emit an error and
perform no branch operation; the menu front end terminates with exit status 1
before any branch operation, while the TUI front end stays running (its
startup produces no exit status). -/
theorem non_repo_startup :
    (cli_main_startup false).errorEmitted = true ∧
    (cli_main_startup false).exitCode = some 1 ∧
    (cli_main_startup false).ops = [] ∧
    (tui_on_mount false).errorEmitted = true ∧
    (tui_on_mount false).ops = [] ∧
    (tui_on_mount false).exitCode = none := by
  decide


/-! ## C6 — protected branches are never marked -/

/-- Local-pass step keeps all marks cleared: freshly constructed entities have
default `False` marks, and a `dict` overwrite stores such a fresh entity. -/
theorem marks_applyLocalFact {m : List UnifiedBranch} {f : LocalFact}
    (hm : ∀ x ∈ m, x.local_marked = false ∧ x.remote_marked = false) :
    ∀ b ∈ applyLocalFact m f, b.local_marked = false ∧ b.remote_marked = false := by
  intro b hb
  rcases mem_upsertBy hb with h | ⟨x, _, rfl⟩ | rfl
  · exact hm b h
  · simp [branchOfLocalFact]
  · simp [branchOfLocalFact]

/-- Remote-pass step keeps all marks cleared: the update touches only
`has_remote` and `remote_name`, and a fresh remote-only entity has default
`False` marks. -/
theorem marks_applyRemoteFact {m : List UnifiedBranch} {p : String × String}
    (hm : ∀ x ∈ m, x.local_marked = false ∧ x.remote_marked = false) :
    ∀ b ∈ applyRemoteFact m p, b.local_marked = false ∧ b.remote_marked = false := by
  intro b hb
  rcases mem_upsertBy hb with h | ⟨x, hx, rfl⟩ | rfl
  · exact hm b h
  · simpa using hm x hx
  · simp [remoteOnlyBranch]

/-- Every entity produced by a reconciliation has both marks cleared. -/
theorem loadBranches_marks_false (lo : Bool) (lt : String) (ro : Bool) (rt : String) :
    ∀ b ∈ loadBranches lo lt ro rt,
      b.local_marked = false ∧ b.remote_marked = false := by
  intro b hb
  exact foldl_inv
    (p := fun (m : List UnifiedBranch) =>
      ∀ x ∈ m, x.local_marked = false ∧ x.remote_marked = false)
    (fun _ _ hm => marks_applyRemoteFact hm) _ _
    (foldl_inv
      (p := fun (m : List UnifiedBranch) =>
        ∀ x ∈ m, x.local_marked = false ∧ x.remote_marked = false)
      (fun _ _ hm => marks_applyLocalFact hm) _ _ (by simp)) b
    (mem_loadBranches_iff.1 hb)

/-- The deletion functions never set a mark bit, never change protection, and
never change the name. -/
theorem delete_local_branch_fields (g : Bool × String) (b : UnifiedBranch) :
    (delete_local_branch g b).branch.is_protected = b.is_protected ∧
    ((delete_local_branch g b).branch.local_marked = true → b.local_marked = true) ∧
    (delete_local_branch g b).branch.remote_marked = b.remote_marked ∧
    (delete_local_branch g b).branch.name = b.name := by
  obtain ⟨g1, g2⟩ := g
  unfold delete_local_branch
  cases hc : b.is_current <;> cases hl : b.has_local <;> cases g1 <;> simp_all

/-- Remote-deletion analogue of `delete_local_branch_fields`. -/
theorem delete_remote_branch_fields (g : Bool × String) (b : UnifiedBranch) :
    (delete_remote_branch g b).branch.is_protected = b.is_protected ∧
    (delete_remote_branch g b).branch.local_marked = b.local_marked ∧
    ((delete_remote_branch g b).branch.remote_marked = true → b.remote_marked = true) ∧
    (delete_remote_branch g b).branch.name = b.name := by
  obtain ⟨g1, g2⟩ := g
  unfold delete_remote_branch
  cases hr : b.has_remote <;> cases g1 <;> simp_all

/-- One batch iteration preserves protection and never sets a mark bit. -/
theorem process_marked_fields (g : Bool → String → Bool × String) (b : UnifiedBranch) :
    (process_marked g b).2.2.is_protected = b.is_protected ∧
    ((process_marked g b).2.2.local_marked = true → b.local_marked = true) ∧
    ((process_marked g b).2.2.remote_marked = true → b.remote_marked = true) := by
  unfold process_marked
  cases hlm : b.local_marked with
  | false =>
    simp only [hlm, Bool.false_eq_true, if_false]
    cases hrm : b.remote_marked with
    | false => simp_all
    | true =>
      simp only [hrm, if_true]
      have hR := delete_remote_branch_fields (g false b.name) b
      cases hok : (delete_remote_branch (g false b.name) b).ok <;> simp_all
  | true =>
    simp only [hlm, if_true]
    have hL := delete_local_branch_fields (g true b.name) b
    have hR := delete_remote_branch_fields
      (g false (delete_local_branch (g true b.name) b).branch.name)
      (delete_local_branch (g true b.name) b).branch
    cases hok : (delete_local_branch (g true b.name) b).ok <;>
      simp only [hok, Bool.false_eq_true, if_true, if_false] <;>
      cases hrm : (delete_local_branch (g true b.name) b).branch.remote_marked <;>
      cases hok2 : (delete_remote_branch
        (g false (delete_local_branch (g true b.name) b).branch.name)
        (delete_local_branch (g true b.name) b).branch).ok <;>
      simp_all

/-- Setting one unprotected entity preserves the protection invariant. -/
theorem unmarked_set_toggle {bs : List UnifiedBranch} {i : Nat} {nb : UnifiedBranch}
    (hs : ProtectedUnmarked bs) (hnb : nb.is_protected = false) :
    ProtectedUnmarked (bs.set i nb) := by
  intro x hx hp
  rcases List.mem_or_eq_of_mem_set hx with h | rfl
  · exact hs x h hp
  · rw [hnb] at hp; cases hp

/-- The `handle_delete_confirm` loop is the per-item map. -/
theorem handle_delete_loop_eq (g : Bool → String → Bool × String)
    (bs : List UnifiedBranch) :
    handle_delete_loop g bs =
      ((bs.map fun b => (process_marked g b).1).sum,
       (bs.map fun b => (process_marked g b).2.1).flatten,
       bs.map fun b => (process_marked g b).2.2) := by
  unfold handle_delete_loop
  simpa using handle_delete_loop_aux g bs (0, [], [])

/-- Every application-level transition preserves "no protected branch is
marked". -/
theorem step_preserves_unmarked (s : AppState) (a : Act)
    (hs : ProtectedUnmarked s.branches) : ProtectedUnmarked (step s a).branches := by
  cases a with
  | load lo lt ro rt =>
    intro b hb _
    exact loadBranches_marks_false lo lt ro rt b hb
  | moveCursor r c => exact hs
  | toggleMark =>
    show ProtectedUnmarked (action_toggle_mark s).branches
    unfold action_toggle_mark
    cases hrow : s.branches[s.cursor_row]? with
    | none => exact hs
    | some b =>
      by_cases h1 : s.cursor_col = 1
      · by_cases hp : b.is_protected = true
        · simpa [h1, hp] using hs
        · by_cases hcd : b.can_delete_local = true
          · simp only [h1, if_true, hp, if_false, hcd]
            exact unmarked_set_toggle hs rfl
          · by_cases hc : b.is_current = true <;> simp_all
      · by_cases h2 : s.cursor_col = 2
        · by_cases hp : b.is_protected = true
          · simpa [h1, h2, hp] using hs
          · by_cases hcd : b.can_delete_remote = true
            · simp only [h1, h2, if_true, if_false, hp, hcd]
              exact unmarked_set_toggle hs rfl
            · simp_all
        · simp_all
  | deleteConfirm c g =>
    cases c with
    | false => exact hs
    | true =>
      intro x hx hp
      have hx' : x ∈ (handle_delete_loop g s.branches).2.2 :=
        List.mem_of_mem_filter hx
      rw [handle_delete_loop_eq] at hx'
      rcases List.mem_map.1 hx' with ⟨b, hb, rfl⟩
      have hf := process_marked_fields g b
      have hbp : b.is_protected = true := by rw [← hf.1]; exact hp
      have hm := hs b hb hbp
      constructor
      · cases hml : (process_marked g b).2.2.local_marked
        · rfl
        · exact absurd (hf.2.1 hml) (by simp [hm.1])
      · cases hmr : (process_marked g b).2.2.remote_marked
        · rfl
        · exact absurd (hf.2.2 hmr) (by simp [hm.2])

/-- C6: under every reachable sequence of operations (loads/refreshes, cursor
moves, mark toggles, confirmed or cancelled deletion batches) no protected
branch ever carries a deletion mark; and toggling a mark on a protected
branch's local or remote cell is rejected at mark time with the
protected-branch reason, leaving everything except the status message
unchanged. -/
theorem protected_never_marked (acts : List Act) (s : AppState) (b : UnifiedBranch)
    (hb : s.branches[s.cursor_row]? = some b) (hp : b.is_protected = true)
    (hc : s.cursor_col = 1 ∨ s.cursor_col = 2) :
    ProtectedUnmarked (runApp acts).branches ∧
    step s .toggleMark = { s with status_message := protectedMsg b.name } := by
  constructor
  · exact foldl_inv (p := fun (t : AppState) => ProtectedUnmarked t.branches)
      step_preserves_unmarked acts initialAppState (by intro x hx; cases hx)
  · show action_toggle_mark s = _
    unfold action_toggle_mark
    rw [hb]
    rcases hc with h | h <;> simp [h, hp]

/-- C6 witness: a concrete run whose final state satisfies the invariant, and
a concrete state where toggling on the protected branch `main` under the
cursor is rejected with the protected-branch message. -/
theorem protected_never_marked_witness :
    ProtectedUnmarked (runApp wActs).branches ∧
    step wAppState .toggleMark =
      { wAppState with status_message := protectedMsg protectedLocalBranch.name } :=
  protected_never_marked wActs wAppState protectedLocalBranch (by decide) rfl
    (Or.inl rfl)

/-! ## C10 — output ordering of the reconciliation -/

/-- Lexicographic character-list comparison is total. -/
theorem charsLE_total : ∀ s t : List Char, charsLE s t = true ∨ charsLE t s = true
  | [], _ => Or.inl rfl
  | _ :: _, [] => Or.inr rfl
  | a :: as, b :: bs => by
    rcases lt_trichotomy a b with h | rfl | h
    · left; simp [charsLE, h]
    · rcases charsLE_total as bs with ih | ih
      · left; simpa [charsLE, lt_irrefl] using ih
      · right; simpa [charsLE, lt_irrefl] using ih
    · right; simp [charsLE, h]

/-- Lexicographic character-list comparison is transitive. -/
theorem charsLE_trans : ∀ (s t u : List Char),
    charsLE s t = true → charsLE t u = true → charsLE s u = true
  | [], _, _, _, _ => rfl
  | _ :: _, [], _, h1, _ => by simp [charsLE] at h1
  | _ :: _, _ :: _, [], _, h2 => by simp [charsLE] at h2
  | a :: as, b :: bs, c :: cs, h1, h2 => by
    simp only [charsLE] at h1 h2 ⊢
    rcases lt_trichotomy a b with hab | rfl | hab
    · rcases lt_trichotomy b c with hbc | rfl | hbc
      · simp [lt_trans hab hbc]
      · simp [hab]
      · rw [if_neg (asymm hbc), if_pos hbc] at h2; cases h2
    · rw [if_neg (lt_irrefl a), if_neg (lt_irrefl a)] at h1
      rcases lt_trichotomy a c with hac | rfl | hac
      · simp [hac]
      · rw [if_neg (lt_irrefl a), if_neg (lt_irrefl a)] at h2 ⊢
        exact charsLE_trans as bs cs h1 h2
      · rw [if_neg (asymm hac), if_pos hac] at h2; cases h2
    · rw [if_neg (asymm hab), if_pos hab] at h1; cases h1

/-- The sort-key order is total. -/
theorem keyLE_total (a b : UnifiedBranch) : keyLE a b = true ∨ keyLE b a = true := by
  unfold keyLE
  cases hpa : a.is_protected <;> cases hpb : b.is_protected <;>
    simp [hpa, hpb] <;> exact charsLE_total _ _

/-- The sort-key order is transitive. -/
theorem keyLE_trans (a b c : UnifiedBranch) :
    keyLE a b = true → keyLE b c = true → keyLE a c = true := by
  unfold keyLE
  cases hpa : a.is_protected <;> cases hpb : b.is_protected <;>
    cases hpc : c.is_protected <;> simp_all <;>
    exact charsLE_trans _ _ _

instance : IsTotal UnifiedBranch branchLE := ⟨keyLE_total⟩

instance : IsTrans UnifiedBranch branchLE := ⟨keyLE_trans⟩

/-- C10: the entity list produced by every reconciliation is sorted by the
key order `(not isProtected, name)` — equivalently, pairwise: protected
entries all precede unprotected ones, and within equal protection the names
are in lexicographic order.  The ordering is deterministic because
`loadBranches` is a pure function of the raw input blocks. -/
theorem load_branches_sorted (lo : Bool) (lt : String) (ro : Bool) (rt : String) :
    List.Sorted branchLE (loadBranches lo lt ro rt) ∧
    List.Pairwise
      (fun a b => (b.is_protected = true → a.is_protected = true) ∧
        (a.is_protected = b.is_protected → charsLE a.name.data b.name.data = true))
      (loadBranches lo lt ro rt) := by
  have hs : List.Sorted branchLE (loadBranches lo lt ro rt) := by
    unfold loadBranches
    exact List.sorted_insertionSort branchLE _
  refine ⟨hs, List.Pairwise.imp ?_ hs⟩
  intro a b hab
  have hk : keyLE a b = true := hab
  revert hk
  unfold keyLE
  cases hpa : a.is_protected <;> cases hpb : b.is_protected <;> simp_all

/-! ## C7 — existence flags versus observed facts -/

/-- An element described by `getLast?` is in the list. -/
theorem mem_of_getLast?_eq {α : Type} {l : List α} {a : α}
    (h : l.getLast? = some a) : a ∈ l := by
  rcases List.mem_getLast?_eq_getLast (Option.mem_def.2 h) with ⟨hne, rfl⟩
  exact List.getLast_mem hne

/-- `find?` by name commutes with a key-preserving in-place rewrite. -/
theorem find?_map_upd (nm n : String) (f : UnifiedBranch → UnifiedBranch)
    (hf : ∀ x : UnifiedBranch, x.name = nm → (f x).name = x.name)
    (m : List UnifiedBranch) :
    ((m.map fun x => if x.name == nm then f x else x).find?
        fun x => x.name == n) =
      if nm = n then (m.find? fun x => x.name == n).map f
      else m.find? fun x => x.name == n := by
  induction m with
  | nil => by_cases h : nm = n <;> simp [h]
  | cons x m ih =>
    by_cases hxnm : x.name = nm <;> by_cases hxn : x.name = n <;>
      by_cases hnmn : nm = n <;>
      simp_all [List.find?_cons, beq_iff_eq, hf]

/-- `find?` by name after a `dict` write: the written key now maps to the
updated or inserted value; other keys are unchanged. -/
theorem find?_upsertBy (m : List UnifiedBranch) (nm n : String)
    (f : UnifiedBranch → UnifiedBranch) (nb : UnifiedBranch)
    (hf : ∀ x : UnifiedBranch, x.name = nm → (f x).name = x.name)
    (hnb : nb.name = nm) :
    (upsertBy m nm f nb).find? (fun x => x.name == n) =
      if nm = n then
        match m.find? fun x => x.name == n with
        | some x => some (f x)
        | none => some nb
      else m.find? fun x => x.name == n := by
  unfold upsertBy
  cases hany : m.any fun x => x.name == nm with
  | true =>
    rw [if_pos rfl, find?_map_upd nm n f hf m]
    by_cases hnmn : nm = n
    · rw [if_pos hnmn, if_pos hnmn]
      have hsome : (m.find? fun x => x.name == n).isSome = true := by
        rw [List.find?_isSome]
        rcases List.any_eq_true.1 hany with ⟨x, hx, hxnm⟩
        exact ⟨x, hx, by simp_all [beq_iff_eq]⟩
      cases ho : m.find? fun x => x.name == n with
      | none => rw [ho] at hsome; simp at hsome
      | some x => rfl
    · rw [if_neg hnmn, if_neg hnmn]
  | false =>
    rw [if_neg Bool.false_ne_true, List.find?_append]
    by_cases hnmn : nm = n
    · have hnone : (m.find? fun x => x.name == n) = none := by
        rw [List.find?_eq_none]
        intro x hx hpx
        have hx' : (m.any fun x => x.name == nm) = true :=
          List.any_eq_true.2 ⟨x, hx, by simp_all [beq_iff_eq]⟩
        rw [hany] at hx'; cases hx'
      rw [hnone, if_pos hnmn]
      have : ([nb].find? fun x => x.name == n) = some nb :=
        List.find?_cons_of_pos _ (by simp [beq_iff_eq, hnb, hnmn])
      rw [this]
      rfl
    · rw [if_neg hnmn]
      have h2 : ([nb].find? fun x => x.name == n) = none := by
        rw [List.find?_eq_none]
        intro x hx
        rw [List.mem_singleton.1 hx]
        simp [beq_iff_eq, hnb, hnmn]
      rw [h2]
      cases m.find? fun x => x.name == n <;> rfl

/-- After the local pass, the map entry for name `n` is the entity built from
the LAST local fact named `n`; names without local facts keep their previous
entry. -/
theorem find?_fold_local (fs : List LocalFact) :
    ∀ (m : List UnifiedBranch) (n : String),
      ((fs.foldl applyLocalFact m).find? fun x => x.name == n) =
        match (fs.filter fun f => f.name == n).getLast? with
        | some f => some (branchOfLocalFact f)
        | none => m.find? fun x => x.name == n := by
  induction fs with
  | nil => intro m n; simp
  | cons f fs ih =>
    intro m n
    rw [List.foldl_cons, ih]
    by_cases hfn : f.name = n
    · have hfilter : ((f :: fs).filter fun f => f.name == n) =
          f :: (fs.filter fun f => f.name == n) := by
        simp [List.filter_cons, beq_iff_eq, hfn]
      rw [hfilter, List.getLast?_cons]
      rcases hl : (fs.filter fun f => f.name == n).getLast? with _ | fLast
      · rw [hl]
        show (applyLocalFact m f).find? (fun x => x.name == n) = _
        unfold applyLocalFact
        rw [find?_upsertBy m f.name n _ _ (fun x hx => by rw [hx]; rfl) rfl,
          if_pos hfn]
        cases ho : m.find? fun x => x.name == n <;> simp
      · rw [hl]
        simp
    · have hfilter : ((f :: fs).filter fun f => f.name == n) =
          fs.filter fun f => f.name == n := by
        simp [List.filter_cons, beq_iff_eq, hfn]
      rw [hfilter]
      rcases hl : (fs.filter fun f => f.name == n).getLast? with _ | fLast
      · rw [hl]
        show (applyLocalFact m f).find? (fun x => x.name == n) = _
        unfold applyLocalFact
        rw [find?_upsertBy m f.name n _ _ (fun x hx => by rw [hx]; rfl) rfl,
          if_neg hfn]
      · rw [hl]

/-- After the remote pass, the existence flags of the entry for `n`:
`has_local` is untouched, `has_remote` becomes the OR with the remote facts
for `n`, and a name with no entry gains a remote-only one iff a remote fact
mentions it. -/
theorem find?_fold_remote (ps : List (String × String)) :
    ∀ (m : List UnifiedBranch) (n : String),
      (((ps.foldl applyRemoteFact m).find? fun x => x.name == n).map
          fun b => (b.has_local, b.has_remote)) =
        match m.find? fun x => x.name == n with
        | some b => some (b.has_local, b.has_remote || anyRemoteFact ps n)
        | none => if anyRemoteFact ps n then some (false, true) else none := by
  induction ps with
  | nil =>
    intro m n
    cases ho : m.find? fun x => x.name == n <;> simp [anyRemoteFact, ho]
  | cons p ps ih =>
    intro m n
    rw [List.foldl_cons, ih]
    have hupd := find?_upsertBy m p.2 n
      (fun x => { x with has_remote := true, remote_name := some p.1 })
      (remoteOnlyBranch p.1 p.2) (fun x _ => rfl) rfl
    by_cases hpn : p.2 = n
    · have hany : anyRemoteFact (p :: ps) n = true := by
        simp [anyRemoteFact, beq_iff_eq, hpn]
      rw [hany]
      show (match (applyRemoteFact m p).find? fun x => x.name == n with
        | some b => some (b.has_local, b.has_remote || anyRemoteFact ps n)
        | none => if anyRemoteFact ps n then some (false, true) else none) = _
      unfold applyRemoteFact
      rw [hupd, if_pos hpn]
      cases ho : m.find? fun x => x.name == n <;> simp [remoteOnlyBranch]
    · have hany : anyRemoteFact (p :: ps) n = anyRemoteFact ps n := by
        simp [anyRemoteFact, List.any_cons, beq_iff_eq, hpn]
      rw [hany]
      show (match (applyRemoteFact m p).find? fun x => x.name == n with
        | some b => some (b.has_local, b.has_remote || anyRemoteFact ps n)
        | none => if anyRemoteFact ps n then some (false, true) else none) = _
      unfold applyRemoteFact
      rw [hupd, if_neg hpn]

/-- Keys after a `dict` write: unchanged on overwrite, the new key appended
on insert. -/
theorem upsertBy_names (m : List UnifiedBranch) (nm : String)
    (f : UnifiedBranch → UnifiedBranch) (nb : UnifiedBranch)
    (hf : ∀ x : UnifiedBranch, x.name = nm → (f x).name = x.name)
    (hnb : nb.name = nm) :
    (upsertBy m nm f nb).map (fun x => x.name) =
      if (m.any fun x => x.name == nm) = true then m.map fun x => x.name
      else (m.map fun x => x.name) ++ [nm] := by
  unfold upsertBy
  by_cases hany : (m.any fun x => x.name == nm) = true
  · rw [if_pos hany, if_pos hany, List.map_map]
    refine List.map_congr_left fun x _ => ?_
    by_cases hx : x.name = nm
    · simp only [Function.comp]
      rw [if_pos (by simp [beq_iff_eq, hx])]
      exact hf x hx
    · simp only [Function.comp]
      rw [if_neg (by simp [beq_iff_eq, hx])]
  · rw [if_neg hany, if_neg hany]
    simp [hnb]

/-- A `dict` write preserves key uniqueness. -/
theorem upsertBy_nodup {m : List UnifiedBranch} {nm : String}
    {f : UnifiedBranch → UnifiedBranch} {nb : UnifiedBranch}
    (hf : ∀ x : UnifiedBranch, x.name = nm → (f x).name = x.name)
    (hnb : nb.name = nm)
    (hm : (m.map fun x => x.name).Nodup) :
    ((upsertBy m nm f nb).map fun x => x.name).Nodup := by
  rw [upsertBy_names m nm f nb hf hnb]
  by_cases hany : (m.any fun x => x.name == nm) = true
  · rw [if_pos hany]; exact hm
  · rw [if_neg hany]
    refine hm.append (List.nodup_singleton nm) ?_
    intro a ha hb
    rcases List.mem_map.1 ha with ⟨x, hx, rfl⟩
    exact hany (List.any_eq_true.2
      ⟨x, hx, by simp [beq_iff_eq, List.mem_singleton.1 hb]⟩)

/-- The local pass preserves key uniqueness. -/
theorem fold_local_nodup (fs : List LocalFact) :
    ∀ m : List UnifiedBranch, (m.map fun x => x.name).Nodup →
      (((fs.foldl applyLocalFact m).map fun x => x.name)).Nodup := by
  induction fs with
  | nil => intro m hm; exact hm
  | cons f fs ih =>
    intro m hm
    rw [List.foldl_cons]
    exact ih _ (upsertBy_nodup (fun x hx => by rw [hx]; rfl) rfl hm)

/-- The remote pass preserves key uniqueness. -/
theorem fold_remote_nodup (ps : List (String × String)) :
    ∀ m : List UnifiedBranch, (m.map fun x => x.name).Nodup →
      (((ps.foldl applyRemoteFact m).map fun x => x.name)).Nodup := by
  induction ps with
  | nil => intro m hm; exact hm
  | cons p ps ih =>
    intro m hm
    rw [List.foldl_cons]
    exact ih _ (upsertBy_nodup (fun x _ => rfl) rfl hm)

/-- With unique keys, `find?` by an element's own name returns that element. -/
theorem find?_name_of_mem :
    ∀ {m : List UnifiedBranch}, ((m.map fun x => x.name).Nodup) →
      ∀ {b : UnifiedBranch}, b ∈ m → (m.find? fun x => x.name == b.name) = some b := by
  intro m
  induction m with
  | nil => intro _ b hb; cases hb
  | cons x m ih =>
    intro hn b hb
    rcases List.mem_cons.1 hb with rfl | hb'
    · exact List.find?_cons_of_pos _ (by simp)
    · have hxb : x.name ≠ b.name := by
        intro he
        have : b.name ∈ m.map fun x => x.name :=
          List.mem_map.2 ⟨b, hb', rfl⟩
        rw [List.map_cons] at hn
        exact (List.nodup_cons.1 hn).1 (he ▸ this)
      rw [List.find?_cons_of_neg _ (by simp [beq_iff_eq, hxb])]
      exact ih (by rw [List.map_cons] at hn; exact (List.nodup_cons.1 hn).2) hb'

/-- C7 (amended): for every branch in the reconciled set, `hasLocal` is the
OR of the local facts observed for that name (a local fact always asserts
local existence, and the remote block never clears it); `hasRemote` is the OR
of the LAST local fact's remote inference for the name with all remote facts
for the name.  The original claim — OR over ALL local facts — fails when the
same name appears on more than one local line, because a later
`branch_map[name] = branch` write replaces the earlier entry wholesale (see
the counterexample). -/
theorem reconcile_side_or (lo : Bool) (lt : String) (ro : Bool) (rt : String)
    (b : UnifiedBranch) (hb : b ∈ loadBranches lo lt ro rt) :
    b.has_local = anyLocalFact (localFactsEff lo lt) b.name ∧
    b.has_remote = (lastLocalRemote (localFactsEff lo lt) b.name
      || anyRemoteFact (remoteFactsEff ro rt) b.name) := by
  have hb2 : b ∈ (remoteFactsEff ro rt).foldl applyRemoteFact
      ((localFactsEff lo lt).foldl applyLocalFact []) := mem_loadBranches_iff.1 hb
  have hnodup1 : ((((localFactsEff lo lt).foldl applyLocalFact
      ([] : List UnifiedBranch))).map fun x => x.name).Nodup :=
    fold_local_nodup _ _ (by simp)
  have hnodup2 := fold_remote_nodup (remoteFactsEff ro rt) _ hnodup1
  have hfind := find?_name_of_mem hnodup2 hb2
  have hrem := find?_fold_remote (remoteFactsEff ro rt)
    ((localFactsEff lo lt).foldl applyLocalFact []) b.name
  rw [hfind] at hrem
  have hloc := find?_fold_local (localFactsEff lo lt) [] b.name
  rcases hl : ((localFactsEff lo lt).filter fun f => f.name == b.name).getLast?
    with _ | f
  · rw [hl, List.find?_nil] at hloc
    rw [hloc] at hrem
    have hfe : (localFactsEff lo lt).filter (fun f => f.name == b.name) = [] :=
      List.getLast?_eq_none_iff.1 hl
    have hanyl : anyLocalFact (localFactsEff lo lt) b.name = false := by
      unfold anyLocalFact
      rw [List.any_eq_false]
      intro f hf0
      exact List.filter_eq_nil_iff.1 hfe f hf0
    have hlast : lastLocalRemote (localFactsEff lo lt) b.name = false := by
      unfold lastLocalRemote
      rw [hl]
    cases har : anyRemoteFact (remoteFactsEff ro rt) b.name with
    | false => rw [har] at hrem; simp at hrem
    | true =>
      rw [har] at hrem
      simp at hrem
      exact ⟨by rw [hanyl]; exact hrem.1, by rw [hlast]; simp [hrem.2]⟩
  · rw [hl] at hloc
    rw [hloc] at hrem
    simp [branchOfLocalFact] at hrem
    have hmem : f ∈ (localFactsEff lo lt).filter fun f2 => f2.name == b.name :=
      mem_of_getLast?_eq hl
    have hanyl : anyLocalFact (localFactsEff lo lt) b.name = true := by
      unfold anyLocalFact
      exact List.any_eq_true.2
        ⟨f, (List.mem_filter.1 hmem).1, (List.mem_filter.1 hmem).2⟩
    have hlast : lastLocalRemote (localFactsEff lo lt) b.name = localRemoteOf f := by
      unfold lastLocalRemote
      rw [hl]
    exact ⟨by rw [hanyl]; exact hrem.1, by rw [hlast]; unfold localRemoteOf; exact hrem.2⟩

/-- C7 witness: a concrete reconciliation where the OR-of-facts equations
hold for the branch `alpha`. -/
theorem reconcile_side_or_witness :
    wAlphaBranch.has_local = anyLocalFact (localFactsEff true wAlphaLocalText)
      wAlphaBranch.name ∧
    wAlphaBranch.has_remote = (lastLocalRemote (localFactsEff true wAlphaLocalText)
      wAlphaBranch.name || anyRemoteFact (remoteFactsEff true "") wAlphaBranch.name) :=
  reconcile_side_or true wAlphaLocalText true "" wAlphaBranch (by decide)

/-- C7 counterexample: with the local block `foo abc [origin/foo]` followed by
a second line `foo def`, processing the first line alone yields
`hasRemote = true`, but the full pass yields `hasRemote = false` — the later
line's write downgraded the side from true to false — while the OR of all
observed facts for `foo` is true. -/
theorem reconcile_side_or_cex :
    ((loadBranches true "foo abc [origin/foo]" true "").map fun b => b.has_remote)
      = [true] ∧
    ((loadBranches true cexDupLocalText true "").map fun b => b.has_remote)
      = [false] ∧
    ((localFactsEff true cexDupLocalText).any
        fun f => f.name == "foo" && localRemoteOf f) = true := by
  decide
